import Mathlib

/-!
Verification of the cxxopts command-line parsing library (artpaul/cxxopts).

This file gives a shallow embedding, in Lean, of the parts of the library
that the specification's claims are about:

* the Value Converter (`detail::parse_uint64`, `detail::integer_parser`,
  the list/vector value parsing in `value_parser<std::vector<T>>::parse`),
* the Argument Grammar Matcher (`options::option_parser::parse_argument`),
* the Parse Engine (`options::option_parser::parse`, `consume_positional`,
  `checked_parse_arg`, `is_dash_dash_or_option_name`, the defaults /
  environment pass), and
* the Parse Result accessors (`count`, `operator[]`, `as<T>`).

C++ `std::string` values are embedded as Lean `String` / `List Char`
(the sources only ever treat them as ASCII byte sequences without embedded
null characters), machine integers as `Nat` with explicit `% 2 ^ 64` where
the C++ relies on unsigned wraparound, and every fallible operation returns
`Option` or `Except` where the C++ throws.
-/

namespace Cxxopts

/-! ## Value Converter: integer parsing (src/cxxopts.cpp:315-505) -/

/-- Modulus of C++ `uint64_t` arithmetic. -/
def U64MOD : Nat := 2 ^ 64

/-- Decimal digit test and value, from the branch
`*p >= '0' && *p <= '9'` of `detail::parse_uint64`. -/
def decDigit? (c : Char) : Option Nat :=
  if '0' ≤ c ∧ c ≤ '9' then some (c.toNat - '0'.toNat) else none

/-- Hex digit test and value, from the three branches
(`0`-`9`, `a`-`f`, `A`-`F`) of the hex loop of `detail::parse_uint64`. -/
def hexDigit? (c : Char) : Option Nat :=
  if '0' ≤ c ∧ c ≤ '9' then some (c.toNat - '0'.toNat)
  else if 'a' ≤ c ∧ c ≤ 'f' then some (c.toNat - 'a'.toNat + 10)
  else if 'A' ≤ c ∧ c ≤ 'F' then some (c.toNat - 'A'.toNat + 10)
  else none

/-- The digit-accumulation loop of `detail::parse_uint64`
(src/cxxopts.cpp:388-407 for hex with `base = 16`, 410-425 for decimal with
`base = 10`).  `const uint64_t next = value * base + digit` wraps modulo
`2 ^ 64`; the loop rejects exactly when `value > next`. -/
def parseUint64Loop (base : Nat) (digit? : Char → Option Nat) :
    List Char → Nat → Option Nat
  | [], value => some value
  | c :: p, value =>
    match digit? c with
    | none => none
    | some digit =>
      let next := (value * base + digit) % U64MOD
      if value > next then none else parseUint64Loop base digit? p next

/-- `detail::parse_uint64` (src/cxxopts.cpp:362-428): parses an optional
sign, then either a `0x`-prefixed hex body or a decimal body, into a
`uint64_t` magnitude plus a `negative` flag.  `none` models `return false`. -/
def parse_uint64 (text : List Char) : Option (Nat × Bool) :=
  match text with
  | [] => none
  | _ =>
    let sp : Bool × List Char :=
      match text with
      | '+' :: rest => (false, rest)
      | '-' :: rest => (true, rest)
      | _ => (false, text)
    let negative := sp.1
    match sp.2 with
    | [] => none
    | '0' :: 'x' :: rest =>
      match rest with
      | [] => none
      | _ => (parseUint64Loop 16 hexDigit? rest 0).map (fun v => (v, negative))
    | p => (parseUint64Loop 10 decDigit? p 0).map (fun v => (v, negative))

/-- `detail::signed_check` / `check_signed_range` (src/cxxopts.cpp:318-344)
for a target type of width `bits` and the given signedness; `u` is the
parsed magnitude viewed in the unsigned companion type `US`.
`static_cast<US>(min)` is `2 ^ (bits - 1)` and `static_cast<US>(max)` is
`2 ^ (bits - 1) - 1` in two's complement. -/
def check_signed_range (bits : Nat) (signed : Bool) (u : Nat) (negative : Bool) : Bool :=
  if signed then
    decide ((2 ^ (bits - 1) ≥ u ∧ negative = true) ∨ 2 ^ (bits - 1) - 1 ≥ u)
  else true

/-- `detail::integer_parser` (src/cxxopts.cpp:430-463) instantiated at an
integer target type of the given width and signedness.  `none` models
`throw_or_mimic<argument_incorrect_type>`.  For a negative parse of a
signed type, `checked_negate` (src/cxxopts.cpp:346-354) computes
`-(R)(t-1)-1`, which equals the mathematical negation of the magnitude. -/
def integerParser (bits : Nat) (signed : Bool) (text : List Char) : Option Int :=
  match parse_uint64 text with
  | none => none
  | some (u64_result, negative) =>
    if u64_result > 2 ^ bits - 1 then none
    else
      let result := u64_result
      if check_signed_range bits signed result negative = false then none
      else if negative then
        if signed then some (-(result : Int))
        else none
      else some (result : Int)

/-! ### The exact (non-wrapping) magnitude of a digit string

Used only to *state* overflow properties: same lexical grammar as
`parse_uint64`, but accumulating in unbounded `Nat`. -/

/-- Mathematical digit accumulation, without the 64-bit wraparound. -/
def digitsVal (base : Nat) (digit? : Char → Option Nat) :
    List Char → Nat → Option Nat
  | [], value => some value
  | c :: p, value =>
    match digit? c with
    | none => none
    | some digit => digitsVal base digit? p (value * base + digit)

/-- The exact mathematical magnitude (and sign) denoted by a token, under
the same lexical grammar as `parse_uint64`. -/
def textMagnitude (text : List Char) : Option (Nat × Bool) :=
  match text with
  | [] => none
  | _ =>
    let sp : Bool × List Char :=
      match text with
      | '+' :: rest => (false, rest)
      | '-' :: rest => (true, rest)
      | _ => (false, text)
    let negative := sp.1
    match sp.2 with
    | [] => none
    | '0' :: 'x' :: rest =>
      match rest with
      | [] => none
      | _ => (digitsVal 16 hexDigit? rest 0).map (fun v => (v, negative))
    | p => (digitsVal 10 decDigit? p 0).map (fun v => (v, negative))

/-! ## Argument Grammar Matcher (src/cxxopts.cpp:999-1053) -/

/-- C `isalnum` on the ASCII arguments the parser feeds it. -/
def isalnum (c : Char) : Bool :=
  ('0' ≤ c ∧ c ≤ '9') ∨ ('a' ≤ c ∧ c ≤ 'z') ∨ ('A' ≤ c ∧ c ≤ 'Z')

/-- `option_parser::option_data` (src/cxxopts.cpp:736-741). -/
structure OptionData where
  name : String := ""
  value : String := ""
  is_long : Bool := false
  has_value : Bool := false
deriving DecidableEq, Repr

/-- The name/value loop of the long-option branch of
`option_parser::parse_argument` (src/cxxopts.cpp:1018-1031): `=` ends the
name and the remainder of the token is the attached value; otherwise only
`-`, `_` and alphanumerics may continue the name; the token is accepted
iff the collected name has length at least 2. -/
def parseLongLoop : List Char → OptionData → Option OptionData
  | [], data => if data.name.length > 1 then some data else none
  | c :: p, data =>
    if c = '=' then
      let data := { data with has_value := true, value := ⟨p⟩ }
      if data.name.length > 1 then some data else none
    else if c = '-' ∨ c = '_' ∨ isalnum c then
      parseLongLoop p { data with name := data.name.push c }
    else none

/-- The short-option branch of `option_parser::parse_argument`
(src/cxxopts.cpp:1033-1051): a single `?` or alphanumeric character, or a
cluster of two or more alphanumerics. -/
def parseShort : List Char → Option OptionData
  | [] => none
  | [c] =>
    if c = '?' ∨ isalnum c then
      some { name := ⟨[c]⟩, is_long := false }
    else none
  | cs =>
    if cs.all isalnum then some { name := ⟨cs⟩, is_long := false } else none

/-- `option_parser::parse_argument` (src/cxxopts.cpp:999-1053): the fixed
lexical classifier for one token.  `none` models `return false`. -/
def parse_argument (text : String) : Option OptionData :=
  match text.data with
  | [] => none
  | c :: p =>
    if c ≠ '-' then none
    else
      match p with
      | '-' :: q =>
        match q with
        | c₁ :: c₂ :: rest =>
          if isalnum c₁ then
            parseLongLoop (c₂ :: rest) { name := ⟨[c₁]⟩, is_long := true }
          else none
        | _ => none
      | p => parseShort p

/-! ## Data model: value prototypes, option descriptors, option values -/

/-- `detail::value_base` (src/include/cxxopts.hpp:201-348): the value
prototype carried by an option declaration.  The virtual type-trait
queries `do_is_boolean` / `do_is_container` of `basic_value<T>` are
embedded as the two leading fields. -/
structure ValueSpec where
  is_boolean : Bool := false
  is_container : Bool := false
  has_default : Bool := false
  default_value : String := ""
  has_implicit : Bool := false
  implicit_value : String := ""
  has_env : Bool := false
  env_var : String := ""
  delimiter : Char := ','
deriving DecidableEq, Repr

/-- `value_base::set_default_and_implicit` (src/include/cxxopts.hpp:330-337)
applied at `basic_value<T>` construction: booleans auto-acquire default
`"false"` and implicit `"true"`. -/
def mkValue (boolean container : Bool) : ValueSpec :=
  if boolean then
    { is_boolean := boolean, is_container := container,
      has_default := true, default_value := "false",
      has_implicit := true, implicit_value := "true" }
  else
    { is_boolean := boolean, is_container := container }

/-- `value_base::default_value` (src/include/cxxopts.hpp:250-255). -/
def ValueSpec.with_default (v : ValueSpec) (s : String) : ValueSpec :=
  { v with has_default := true, default_value := s }

/-- `value_base::implicit_value` (src/include/cxxopts.hpp:280-285). -/
def ValueSpec.with_implicit (v : ValueSpec) (s : String) : ValueSpec :=
  { v with has_implicit := true, implicit_value := s }

/-- `value_base::no_implicit_value` (src/include/cxxopts.hpp:288-293). -/
def ValueSpec.no_implicit (v : ValueSpec) : ValueSpec :=
  { v with has_implicit := false, implicit_value := "" }

/-- `value_base::env` (src/include/cxxopts.hpp:266-271). -/
def ValueSpec.with_env (v : ValueSpec) (s : String) : ValueSpec :=
  { v with has_env := true, env_var := s }

/-- Modelled from the spec: `value_base::get_no_value`, called at
src/cxxopts.cpp:982, is declared nowhere under src/ (neither a getter nor
a setter for it exists in include/cxxopts.hpp).  Spec §4.4 step 3
describes the next-token-or-implicit logic without any such extra
condition, so the missing member is modelled as constantly false. -/
def ValueSpec.get_no_value (_ : ValueSpec) : Bool := false

/-- `option_details` (src/cxxopts.cpp:559-596): one declared option. -/
structure OptionDetails where
  short_ : String
  long_ : String
  value_ : ValueSpec
deriving DecidableEq, Repr

/-- `option_details::hash` is `std::hash<std::string>{}(long_ + short_)`
(src/cxxopts.cpp:568); the embedding uses the hashed string itself as the
key, which identifies options exactly as the hash is intended to. -/
def OptionDetails.hash (o : OptionDetails) : String := o.long_ ++ o.short_

/-- `option_value` (src/include/cxxopts.hpp:573-640, src/cxxopts.cpp:599-647):
the per-parse mutable slot of one option.  `value_set` models
`value_ != nullptr` (lazily materialized storage); `texts` records, in
order, every text handed to `value_->parse`, so the typed content of the
storage can be recomputed from it at query time (for a scalar type each
parse overwrites, so the content is the conversion of the last text; for
a container each parse appends). -/
structure OptionValue where
  long_name : String := ""
  value_set : Bool := false
  texts : List String := []
  count : Nat := 0
  default : Bool := false
deriving DecidableEq, Repr

/-- `option_value::parse` (src/cxxopts.cpp:599-608): `ensure_value`, then
increment the occurrence count, parse the text into storage and record
the long name. -/
def OptionValue.parse (ov : OptionValue) (details : OptionDetails)
    (text : String) : OptionValue :=
  { ov with value_set := true, count := ov.count + 1,
            texts := ov.texts ++ [text], long_name := details.long_ }

/-- `option_value::parse_default` (src/cxxopts.cpp:610-618): `ensure_value`,
mark the default applied, record the long name and parse the declared
default text into storage; the occurrence count is not incremented. -/
def OptionValue.parse_default (ov : OptionValue) (details : OptionDetails) : OptionValue :=
  { ov with value_set := true, default := true, long_name := details.long_,
            texts := ov.texts ++ [details.value_.default_value] }

/-- `option_value::parse_no_value` (src/cxxopts.cpp:620-625): records the
long name only; storage stays unmaterialized. -/
def OptionValue.parse_no_value (ov : OptionValue) (details : OptionDetails) : OptionValue :=
  { ov with long_name := details.long_ }

/-- `option_value::has_value` (src/cxxopts.cpp:637-640). -/
def OptionValue.has_value (ov : OptionValue) : Bool := ov.value_set

/-! ## Association lists standing for the `std::unordered_map`s -/

/-- `find` on a map embedded as an association list. -/
def alistGet? {α : Type} : List (String × α) → String → Option α
  | [], _ => none
  | (k', v) :: rest, k => if k' = k then some v else alistGet? rest k

/-- `operator[] = v` on a map embedded as an association list: replaces
the binding in place, or appends a fresh one. -/
def alistSet {α : Type} : List (String × α) → String → α → List (String × α)
  | [], k, v => [(k, v)]
  | (k', v') :: rest, k, v =>
    if k' = k then (k, v) :: rest else (k', v') :: alistSet rest k v

/-- `options::option_map` (src/include/cxxopts.hpp:914-915): option name
(short or long) to the shared descriptor; an option declared with both a
short and a long name occurs as two entries sharing one descriptor. -/
abbrev OptionMap := List (String × OptionDetails)

/-- `parse_result::parsed_hash_map`: hash (here: the hashed string) to the
per-parse option value.  `parsed_[h]` default-constructs a missing entry,
which `parsedGet` emulates by returning the default `OptionValue`. -/
abbrev ParsedMap := List (String × OptionValue)

/-- Read of `parsed_[h]`: a missing entry reads as a default-constructed
`option_value`. -/
def parsedGet (m : ParsedMap) (h : String) : OptionValue :=
  (alistGet? m h).getD {}

/-- `options::add_option` (src/cxxopts.cpp:1166-1198) restricted to what
the engine sees: registers the descriptor under its short and its long
name (when non-empty); used to build the example registries. -/
def declareOption (opts : OptionMap) (s l : String) (v : ValueSpec) : OptionMap :=
  let details : OptionDetails := { short_ := s, long_ := l, value_ := v }
  let opts := if s ≠ "" then opts ++ [(s, details)] else opts
  if l ≠ "" then opts ++ [(l, details)] else opts

/-! ## Value Converter: list values
(`value_parser<std::vector<T>>::parse`, src/include/cxxopts.hpp:477-510) -/

/-- The `std::getline`-driven tokenization loop of
`value_parser<std::vector<T>>::parse` (src/include/cxxopts.hpp:501-507),
interleaved with the element conversion for `T = int`:
`while (!in.eof() && std::getline(in, token, delimiter))` reads up to the
next delimiter (consuming it); a trailing delimiter therefore does not
produce a final empty segment, while inner empty segments are produced.
The `fuel` argument only makes the recursion structural: every iteration
consumes at least one character, so the fuel-exhaustion case is
unreachable for any fuel at least the character count (`vectorParseInt`
passes exactly that). -/
def vecIntLoop (delim : Char) : Nat → List Char → List Int → Option (List Int)
  | _, [], value => some value
  | 0, _ :: _, _ => none
  | fuel + 1, c :: cs, value =>
    let token := (c :: cs).takeWhile (fun x => x != delim)
    match integerParser 32 true token with
    | none => none
    | some v =>
      match (c :: cs).dropWhile (fun x => x != delim) with
      | [] => some (value ++ [v])
      | _ :: rest => vecIntLoop delim fuel rest (value ++ [v])

/-- `value_parser<std::vector<int>>::parse` (src/include/cxxopts.hpp:483-509):
empty text appends one default-constructed element (`value.push_back(T())`,
i.e. `0`); the inner-container branch does not apply at `T = int`;
non-empty text goes through the `std::getline` loop, each segment
converted by the scalar Value Converter and appended in order. -/
def vectorParseInt (delim : Char) (text : String) (value : List Int) :
    Option (List Int) :=
  if text.data = [] then some (value ++ [(0 : Int)])
  else vecIntLoop delim text.data.length text.data value

/-- Specification-side splitting: the segments `std::getline` produces
from a text for a given delimiter (a trailing delimiter yields no final
empty segment; inner and leading delimiters yield empty segments).  Used
to state that the vector parser converts exactly these segments. -/
def getlineSplit (delim : Char) : List Char → List (List Char)
  | [] => []
  | c :: cs =>
    if c = delim then [] :: getlineSplit delim cs
    else
      match getlineSplit delim cs with
      | [] => [[c]]
      | t :: ts => (c :: t) :: ts

/-- Specification-side conversion of a segment list: each segment through
the scalar integer Value Converter, results in order, failing as soon as
one segment fails.  Used to state what the vector parser computes. -/
def convertSegs : List (List Char) → Option (List Int)
  | [] => some []
  | t :: ts =>
    match integerParser 32 true t with
    | none => none
    | some v => (convertSegs ts).map (fun vs => v :: vs)

/-! ## Parse Engine (src/cxxopts.cpp:733-1083) -/

/-- `parse_error` subclasses raised while walking argv
(src/cxxopts.cpp:256-281). -/
inductive ParseError where
  | option_syntax_error (text : String)
  | option_not_exists (name : String)
  | missing_argument (name : String)
deriving DecidableEq, Repr

/-- The mutable state of one `option_parser` run: `parsed_`, `sequential_`
and the local `unmatched` vector of `option_parser::parse`. -/
structure ParserSt where
  parsed : ParsedMap := []
  sequential : List (String × String) := []
  unmatched : List String := []
deriving DecidableEq, Repr

/-- `option_parser::parse_option` (src/cxxopts.cpp:1055-1063): parse the
text into the option's slot and append `(long_name, arg)` to the
consumed-log.  The text is recorded raw; its conversion into typed
storage is the Value Converter above, applied at query time.  (In C++ a
failing conversion aborts the parse here; none of the engine-level claims
exercises a failing bind-time conversion.) -/
def parse_option (st : ParserSt) (opt : OptionDetails) (arg : String) : ParserSt :=
  { st with
    parsed := alistSet st.parsed opt.hash ((parsedGet st.parsed opt.hash).parse opt arg),
    sequential := st.sequential ++ [(opt.long_, arg)] }

/-- `option_parser::consume_positional` (src/cxxopts.cpp:917-935): walk the
remaining positional-binding names; an undeclared name is a hard
`option_not_exists` error; a container binds the token and keeps the
cursor; a non-container binds only with zero prior occurrences and then
advances the cursor, and is otherwise skipped.  Returns (absorbed?,
remaining cursor, new state). -/
def consume_positional (opts : OptionMap) (st : ParserSt) (a : String) :
    List String → Except ParseError (Bool × List String × ParserSt)
  | [] => .ok (false, [], st)
  | n :: rest =>
    match alistGet? opts n with
    | none => .error (.option_not_exists n)
    | some opt =>
      if opt.value_.is_container then .ok (true, n :: rest, parse_option st opt a)
      else if (parsedGet st.parsed opt.hash).count = 0 then
        .ok (true, rest, parse_option st opt a)
      else consume_positional opts st a rest

/-- `option_parser::is_dash_dash_or_option_name` (src/cxxopts.cpp:937-964):
whether a candidate value token is the `--` terminator or matches the
option grammar with a name (for clusters: first character) that resolves
in the registry. -/
def is_dash_dash_or_option_name (opts : OptionMap) (arg : String) : Bool :=
  if arg = "--" then true
  else
    match parse_argument arg with
    | none => false
    | some result =>
      if result.is_long then (alistGet? opts result.name).isSome
      else (alistGet? opts (result.name.take 1)).isSome

/-- `option_parser::checked_parse_arg` (src/cxxopts.cpp:966-997):
`next_arg` is `argv[current + 1]` when `current + 1 < argc`, else `none`.
Returns the new state and whether the next token was consumed as the
option's value (`++current` in the C++). -/
def checked_parse_arg (opts : OptionMap) (next_arg : Option String)
    (opt : OptionDetails) (name : String) (st : ParserSt) :
    Except ParseError (ParserSt × Bool) :=
  let parse_implicit : Except ParseError (ParserSt × Bool) :=
    if opt.value_.has_implicit then
      .ok (parse_option st opt opt.value_.implicit_value, false)
    else .error (.missing_argument name)
  match next_arg with
  | none => parse_implicit
  | some arg =>
    if opt.value_.get_no_value then parse_implicit
    else if arg.data.head? = some '-' ∧ is_dash_dash_or_option_name opts arg then
      parse_implicit
    else .ok (parse_option st opt arg, true)

/-- The short-option cluster loop of `option_parser::parse`
(src/cxxopts.cpp:804-830): characters are scanned left to right; an
unknown character is an `option_not_exists` error, or, under tolerance,
is pushed to unmatched as `"-"` + the character and scanning continues;
the last character goes through `checked_parse_arg`; a non-last character
binds its implicit value and continues, or, without an implicit value,
binds the remainder of the cluster and stops. -/
def clusterLoop (opts : OptionMap) (allow : Bool) (next_arg : Option String) :
    List Char → ParserSt → Except ParseError (ParserSt × Bool)
  | [], st => .ok (st, false)
  | c :: rest, st =>
    let name : String := ⟨[c]⟩
    match alistGet? opts name with
    | none =>
      if allow then
        clusterLoop opts allow next_arg rest
          { st with unmatched := st.unmatched ++ ["-".push c] }
      else .error (.option_not_exists name)
    | some opt =>
      if rest = [] then checked_parse_arg opts next_arg opt name st
      else if opt.value_.has_implicit then
        clusterLoop opts allow next_arg rest
          (parse_option st opt opt.value_.implicit_value)
      else .ok (parse_option st opt ⟨rest⟩, false)

/-- The first for-loop of the `--` branch of `option_parser::parse`
(src/cxxopts.cpp:770-775): greedily feed the remaining tokens through
positional consumption until one is not absorbed; returns the final state
and the tokens left over (which the second for-loop routes to unmatched). -/
def consumeAllPositional (opts : OptionMap) :
    List String → List String → ParserSt →
    Except ParseError (ParserSt × List String)
  | [], _, st => .ok (st, [])
  | a :: rest, np, st => do
    match ← consume_positional opts st a np with
    | (true, np', st') => consumeAllPositional opts rest np' st'
    | (false, _, st') => .ok (st', a :: rest)

/-- The token-walk loop of `option_parser::parse` (src/cxxopts.cpp:763-860).
`remaining` is `argv[current..]`; `current` is carried only to report
`consumed()`.  Returns the final state and the final `current`.  The
`fuel` argument only makes the recursion structural: every iteration
consumes at least one token, so the fuel-exhaustion case is unreachable
for any fuel at least the token count (`optionsParse` passes exactly
that). -/
def parseLoop (opts : OptionMap) (allow stop : Bool) :
    Nat → List String → Nat → List String → ParserSt →
    Except ParseError (ParserSt × Nat)
  | _, [], current, _, st => .ok (st, current)
  | 0, _ :: _, current, _, st => .ok (st, current)
  | fuel + 1, tok :: rest, current, np, st =>
    if tok = "--" then
      if stop then .ok (st, current + 1)
      else do
        let (st', leftover) ← consumeAllPositional opts rest np st
        .ok ({ st' with unmatched := st'.unmatched ++ leftover },
             current + 1 + rest.length)
    else
      match parse_argument tok with
      | none =>
        if tok.data.head? = some '-' ∧ tok.length > 1 ∧ allow = false then
          .error (.option_syntax_error tok)
        else if stop then .ok (st, current)
        else do
          let (consumedOk, np', st') ← consume_positional opts st tok np
          let st'' := if consumedOk then st'
                      else { st' with unmatched := st'.unmatched ++ [tok] }
          parseLoop opts allow stop fuel rest (current + 1) np' st''
      | some result =>
        if result.is_long = false then do
          let (st', consumedNext) ← clusterLoop opts allow rest.head? result.name.data st
          if consumedNext then parseLoop opts allow stop fuel (rest.drop 1) (current + 2) np st'
          else parseLoop opts allow stop fuel rest (current + 1) np st'
        else
          match alistGet? opts result.name with
          | none =>
            if allow then
              parseLoop opts allow stop fuel rest (current + 1) np
                { st with unmatched := st.unmatched ++ [tok] }
            else .error (.option_not_exists result.name)
          | some opt =>
            if result.has_value then
              parseLoop opts allow stop fuel rest (current + 1) np
                (parse_option st opt result.value)
            else do
              let (st', consumedNext) ← checked_parse_arg opts rest.head? opt result.name st
              if consumedNext then parseLoop opts allow stop fuel (rest.drop 1) (current + 2) np st'
              else parseLoop opts allow stop fuel rest (current + 1) np st'

/-- The defaults-and-environment pass of `option_parser::parse`
(src/cxxopts.cpp:862-881): for every registry entry, materialize its slot
(`parsed_[hash]`); apply the default when the option has one and the slot
has neither occurrences nor an applied default, otherwise record the long
name via `parse_no_value`; then, when the option has an environment
binding and the slot still has zero occurrences, bind the environment
text as a normal occurrence. -/
def applyEntry (env : String → Option String) (detail : OptionDetails)
    (parsed : ParsedMap) : ParsedMap :=
  let value := detail.value_
  let store := parsedGet parsed detail.hash
  let parsed := alistSet parsed detail.hash store
  let parsed :=
    if value.has_default then
      if store.count = 0 ∧ store.default = false then
        alistSet parsed detail.hash (store.parse_default detail)
      else parsed
    else alistSet parsed detail.hash (store.parse_no_value detail)
  let store := parsedGet parsed detail.hash
  if value.has_env ∧ store.count = 0 then
    match env value.env_var with
    | some e => alistSet parsed detail.hash (store.parse detail e)
    | none => parsed
  else parsed

/-- The loop over the registry entries running `applyEntry` on each (an
option declared under both names is visited twice, which is idempotent:
the second visit sees the applied default / bound occurrence). -/
def applyDefaultsEnv (env : String → Option String) :
    List (String × OptionDetails) → ParsedMap → ParsedMap
  | [], parsed => parsed
  | (_, detail) :: rest, parsed =>
    applyDefaultsEnv env rest (applyEntry env detail parsed)

/-- The alias-finalizing loop of `option_parser::parse`
(src/cxxopts.cpp:883-895): build the name-to-hash index from every
entry's short and long names. -/
def buildKeys : List (String × OptionDetails) → List (String × String) →
    List (String × String)
  | [], keys => keys
  | (_, detail) :: rest, keys =>
    let keys := if detail.short_ ≠ "" then
        alistSet keys detail.short_ detail.hash else keys
    let keys := if detail.long_ ≠ "" then
        alistSet keys detail.long_ detail.hash else keys
    buildKeys rest keys

/-! ## Parse Result (src/cxxopts.cpp:650-730, src/include/cxxopts.hpp:573-640) -/

/-- Errors raised by result accessors. -/
inductive QueryError where
  | option_not_present (name : String)
  | option_has_no_value (name : String)
deriving DecidableEq, Repr

/-- `parse_result`. -/
structure ParseResult where
  keys : List (String × String)
  values : ParsedMap
  sequential : List (String × String)
  unmatched : List String
  consumed : Nat
deriving Repr

/-- `parse_result::count` (src/cxxopts.cpp:682-695). -/
def ParseResult.count (r : ParseResult) (o : String) : Nat :=
  match alistGet? r.keys o with
  | none => 0
  | some h =>
    match alistGet? r.values h with
    | none => 0
    | some ov => ov.count

/-- `parse_result::operator[]` (src/cxxopts.cpp:702-715). -/
def ParseResult.opIndex (r : ParseResult) (o : String) : Except QueryError OptionValue :=
  match alistGet? r.keys o with
  | none => .error (.option_not_present o)
  | some h =>
    match alistGet? r.values h with
    | none => .error (.option_not_present o)
    | some ov => .ok ov

/-- `option_value::as<std::string>` (src/include/cxxopts.hpp:599-610):
fails with `option_has_no_value` when storage was never materialized;
string conversion is the identity, and `basic_value<std::string>`
storage holds the last text parsed into it. -/
def OptionValue.as_string (ov : OptionValue) : Except QueryError String :=
  if ov.value_set = false then .error (.option_has_no_value ov.long_name)
  else .ok (ov.texts.getLastD "")

/-- `option_value::as<int32_t>`: same `option_has_no_value` guard; the
storage holds the integer conversion of the last text parsed into it
(that conversion already succeeded at bind time in any state the C++
reaches, so it is re-run here at query time). -/
def OptionValue.as_int32 (ov : OptionValue) : Except QueryError (Option Int) :=
  if ov.value_set = false then .error (.option_has_no_value ov.long_name)
  else .ok (integerParser 32 true (ov.texts.getLastD "").data)

/-- `options::parse` (src/cxxopts.cpp:1154-1159, 757-905): run the token
walk from index 1, apply defaults and environment fallbacks, finalize the
name index and assemble the `parse_result`.  `env` is the process
environment (`std::getenv`). -/
def optionsParse (opts : OptionMap) (positional : List String)
    (allow stop : Bool) (env : String → Option String)
    (argv : List String) : Except ParseError ParseResult := do
  let (st, current) ← parseLoop opts allow stop (argv.drop 1).length (argv.drop 1) 1 positional {}
  let parsed := applyDefaultsEnv env opts st.parsed
  .ok { keys := buildKeys opts [], values := parsed,
        sequential := st.sequential, unmatched := st.unmatched,
        consumed := current }

/-- The short and long names of the options declared in a registry
(each non-empty `short_` and `long_` of an entry's descriptor): exactly
the names the alias-finalizing loop indexes. -/
def optionNames : List (String × OptionDetails) → List String
  | [] => []
  | (_, detail) :: rest =>
    (if detail.short_ ≠ "" then [detail.short_] else []) ++
    (if detail.long_ ≠ "" then [detail.long_] else []) ++ optionNames rest

/-- The hashes of the options of a registry. -/
def optionHashes (opts : List (String × OptionDetails)) : List String :=
  opts.map (fun p => p.2.hash)

/-- Invariant of one option value slot: materialized storage
(`value_ != nullptr`) only ever comes from a parsed occurrence or an
applied default. -/
def OVinv (ov : OptionValue) : Prop :=
  ov.value_set = true → 0 < ov.count ∨ ov.default = true

/-- `OVinv` for every slot of a parsed map. -/
def PMinv (m : ParsedMap) : Prop := ∀ h, OVinv (parsedGet m h)

/-! ## Example registries (used by the concrete claim instances) -/

/-- An empty environment (`std::getenv` finds nothing). -/
def noEnv : String → Option String := fun _ => none

/-- Registry with boolean `-x` and string `-a` (spec §8, short clustering). -/
def xaRegistry : OptionMap :=
  declareOption (declareOption [] "x" "" (mkValue true false)) "a" "" (mkValue false false)

/-- Registry with boolean `-s` only (spec §8, terminator semantics). -/
def sRegistry : OptionMap := declareOption [] "s" "" (mkValue true false)

/-- Registry with one int option `--num` having default `"42"` and an
environment binding `NUM_ENV` (spec §8, default vs explicit precedence). -/
def numRegistry : OptionMap :=
  declareOption [] "" "num" (((mkValue false false).with_default "42").with_env "NUM_ENV")

/-- Environment in which `NUM_ENV` is set to `"13"`. -/
def numEnv13 : String → Option String :=
  fun n => if n = "NUM_ENV" then some "13" else none

/-- Registry with non-container strings `--a`, `--b` and container `--c`
(spec §8, positional container accumulation). -/
def abcRegistry : OptionMap :=
  declareOption
    (declareOption (declareOption [] "" "a" (mkValue false false)) "" "b" (mkValue false false))
    "" "c" (mkValue false true)

/-- Registry with boolean `-x` only (unrecognised-cluster tolerance). -/
def xRegistry : OptionMap := declareOption [] "x" "" (mkValue true false)

/-- Registry with string `--out` and boolean `-v` (next-token binding). -/
def outRegistry : OptionMap :=
  declareOption (declareOption [] "" "out" (mkValue false false)) "v" "" (mkValue true false)

/-- The descriptor of `--out` in `outRegistry`. -/
def outDetails : OptionDetails :=
  { short_ := "", long_ := "out", value_ := mkValue false false }

/-- The descriptor of `-v` in `outRegistry`. -/
def vDetails : OptionDetails :=
  { short_ := "v", long_ := "", value_ := mkValue true false }

end Cxxopts

namespace Cxxopts

/-! ## Claims C1 and C2 -/

/-- C1.  The claim states that the incremental wraparound detection of
`detail::parse_uint64`, together with the range checks of
`detail::integer_parser`, rejects *every* overflowing digit string, for
every target type including `uint64_t` and `int64_t`.  This is false on
the code: the detection compares each new partial value only to the
previous one, which misses wraparounds that land at or above the previous
partial value.  Concretely, the 17-digit hex string `0xFFFFFFFFFFFFFFFFF`
has magnitude `16 ^ 17 - 1`, far above the `uint64_t` maximum, yet the
converter for `uint64_t` accepts it and returns the wrapped value
`2 ^ 64 - 1`; likewise the decimal string `20496382304121724020` exceeds
the `int64_t` maximum yet is accepted for `int64_t` with the wrapped value
`2049638230412172404`. -/
theorem C1_overflow_detection_incomplete :
    textMagnitude "0xFFFFFFFFFFFFFFFFF".data = some (295147905179352825855, false) ∧
    295147905179352825855 > 2 ^ 64 - 1 ∧
    integerParser 64 false "0xFFFFFFFFFFFFFFFFF".data = some 18446744073709551615 ∧
    textMagnitude "20496382304121724020".data = some (20496382304121724020, false) ∧
    20496382304121724020 > 2 ^ 63 - 1 ∧
    integerParser 64 true "20496382304121724020".data = some 2049638230412172404 := by
  decide

/-- C2.  Converting text to the signed 8-bit integer type: `"127"` parses
to 127, `"128"` is rejected, `"-128"` parses to -128, `"-129"` is
rejected, `"0x7f"` parses to 127, `"0x80"` is rejected, and `"-0x80"`
parses to -128 (negating the unsigned magnitude of the most-negative
value succeeds; a magnitude with no representable counterpart of the
requested sign is rejected). -/
theorem C2_int8_boundary :
    integerParser 8 true "127".data = some 127 ∧
    integerParser 8 true "128".data = none ∧
    integerParser 8 true "-128".data = some (-128) ∧
    integerParser 8 true "-129".data = none ∧
    integerParser 8 true "0x7f".data = some 127 ∧
    integerParser 8 true "0x80".data = none ∧
    integerParser 8 true "-0x80".data = some (-128) := by
  decide

/-! ## Claim C8: list-of-T conversion -/

/-- One `std::getline` round in terms of `getlineSplit`: the first
segment is the run of non-delimiter characters, and the rest of the
split restarts after the consumed delimiter. -/
theorem getlineSplit_cons (delim : Char) :
    ∀ (c : Char) (cs : List Char),
      getlineSplit delim (c :: cs) =
        (c :: cs).takeWhile (fun x => x != delim) ::
          (match (c :: cs).dropWhile (fun x => x != delim) with
           | [] => []
           | _ :: r => getlineSplit delim r) := by
  intro c cs
  induction cs generalizing c with
  | nil =>
    by_cases h : c = delim
    · subst h; simp [getlineSplit, List.takeWhile, List.dropWhile]
    · have hb : (c != delim) = true := by simp [h]
      simp [getlineSplit, List.takeWhile, List.dropWhile, h, hb]
  | cons c2 cs2 ih =>
    by_cases h : c = delim
    · subst h
      simp [getlineSplit, List.takeWhile, List.dropWhile]
    · have hb : (c != delim) = true := by simp [h]
      rw [getlineSplit, if_neg h, ih c2]
      simp [List.takeWhile_cons, List.dropWhile_cons, hb]

/-- The `std::getline` loop of the vector parser converts exactly the
segments of `getlineSplit`, appending the results to the accumulator. -/
theorem vecIntLoop_eq_split (delim : Char) :
    ∀ (fuel : Nat) (cs : List Char) (acc : List Int), cs.length ≤ fuel →
      vecIntLoop delim fuel cs acc =
        (convertSegs (getlineSplit delim cs)).map (fun vs => acc ++ vs) := by
  intro fuel
  induction fuel with
  | zero =>
    intro cs acc h
    have : cs = [] := by
      cases cs with
      | nil => rfl
      | cons a b => simp at h
    subst this
    simp [vecIntLoop, getlineSplit, convertSegs]
  | succ fuel ih =>
    intro cs acc h
    match cs with
    | [] => simp [vecIntLoop, getlineSplit, convertSegs]
    | c :: cs' =>
      rw [getlineSplit_cons]
      cases hIP : integerParser 32 true ((c :: cs').takeWhile (fun x => x != delim)) with
      | none => simp [vecIntLoop, hIP, convertSegs]
      | some v =>
        cases hDW : (c :: cs').dropWhile (fun x => x != delim) with
        | nil => simp [vecIntLoop, hIP, hDW, convertSegs, getlineSplit]
        | cons d r =>
          have hr : r.length ≤ fuel := by
            have hle := (List.dropWhile_sublist (l := c :: cs') (fun x => x != delim)).length_le
            rw [hDW] at hle
            simp at hle h ⊢
            omega
          simp only [vecIntLoop, hIP, hDW]
          rw [ih r (acc ++ [v]) hr]
          cases hM : convertSegs (getlineSplit delim r) with
          | none => simp [hM, convertSegs, hIP]
          | some vs => simp [hM, convertSegs, hIP]

/-- C8.  Converting text to a list of int: empty text appends exactly one
default-constructed element (`[0]`, not an empty list and not an error);
non-empty text is split on the configured single-character delimiter and
each resulting segment is converted by the scalar Value Converter, the
results appended in order (`convertSegs` over `getlineSplit`).  The
concrete instances: `""` yields `[0]`; `"1,2,3"` yields `[1, 2, 3]` from
segments `1`, `2`, `3`. -/
theorem C8_list_value_conversion :
    vectorParseInt ',' "" [] = some [0] ∧
    (∀ (delim : Char) (text : String), text.data ≠ [] →
      vectorParseInt delim text [] = convertSegs (getlineSplit delim text.data)) ∧
    vectorParseInt ',' "1,2,3" [] = some [1, 2, 3] ∧
    getlineSplit ',' "1,2,3".data = ["1".data, "2".data, "3".data] := by
  refine ⟨rfl, ?_, rfl, rfl⟩
  · intro delim text h
    simp only [vectorParseInt, if_neg h]
    rw [vecIntLoop_eq_split delim text.data.length text.data [] (le_refl _)]
    cases convertSegs (getlineSplit delim text.data) <;> simp

/-! ## Claims about the Parse Engine -/

/-- C3.  Short-option cluster scanning: a non-last character whose option
has an implicit value binds the implicit value and scanning continues; a
non-last character whose option has no implicit value binds the remainder
of the cluster as its attached value and scanning stops; the last
character goes through the next-token-or-implicit logic
(`checked_parse_arg`, inside `clusterLoop`).  In particular, with boolean
`-x` and string `-a` declared, the single token `-xxavalue` gives
`count("x") == 2` and `a == "value"`. -/
theorem C3_short_cluster_scanning :
    (∀ (opts : OptionMap) (allow : Bool) (next_arg : Option String)
        (st : ParserSt) (c : Char) (rest : List Char) (opt : OptionDetails),
      rest ≠ [] → alistGet? opts ⟨[c]⟩ = some opt →
      opt.value_.has_implicit = true →
      clusterLoop opts allow next_arg (c :: rest) st =
        clusterLoop opts allow next_arg rest
          (parse_option st opt opt.value_.implicit_value)) ∧
    (∀ (opts : OptionMap) (allow : Bool) (next_arg : Option String)
        (st : ParserSt) (c : Char) (rest : List Char) (opt : OptionDetails),
      rest ≠ [] → alistGet? opts ⟨[c]⟩ = some opt →
      opt.value_.has_implicit = false →
      clusterLoop opts allow next_arg (c :: rest) st =
        .ok (parse_option st opt ⟨rest⟩, false)) ∧
    ((optionsParse xaRegistry [] false false noEnv ["prog", "-xxavalue"]).map
        (fun r => (r.count "x", (r.opIndex "a").map (·.as_string)))
      = .ok (2, .ok (.ok "value"))) := by
  refine ⟨?_, ?_, ?_⟩
  · intro opts allow next_arg st c rest opt hrest hfind himp
    simp [clusterLoop, hfind, hrest, himp]
  · intro opts allow next_arg st c rest opt hrest hfind himp
    simp [clusterLoop, hfind, hrest, himp]
  · rfl

/-- C4.  A recognized long option without an `=`-attached value
(`checked_parse_arg`): with no next token, or with a next token that is
the `--` terminator or looks like a declared option, the implicit value
is bound without consuming the next token when one exists, and the parse
fails with `missing_argument` when none exists; otherwise the next token
is bound as the value and the cursor advances one extra position (the
returned flag, `++current` in the C++).  The concrete cases: `--out file`
binds `file` and consumes it; `--out -v` fails with `missing_argument`
because `-v` is a declared option and `--out` has no implicit value. -/
theorem C4_long_option_next_token :
    (∀ (opts : OptionMap) (opt : OptionDetails) (name : String) (st : ParserSt),
      opt.value_.has_implicit = true →
      checked_parse_arg opts none opt name st =
        .ok (parse_option st opt opt.value_.implicit_value, false)) ∧
    (∀ (opts : OptionMap) (opt : OptionDetails) (name : String) (st : ParserSt),
      opt.value_.has_implicit = false →
      checked_parse_arg opts none opt name st = .error (.missing_argument name)) ∧
    (∀ (opts : OptionMap) (opt : OptionDetails) (name : String) (st : ParserSt)
        (arg : String),
      (arg = "--" ∨ (arg.data.head? = some '-' ∧ is_dash_dash_or_option_name opts arg = true)) →
      opt.value_.has_implicit = true →
      checked_parse_arg opts (some arg) opt name st =
        .ok (parse_option st opt opt.value_.implicit_value, false)) ∧
    (∀ (opts : OptionMap) (opt : OptionDetails) (name : String) (st : ParserSt)
        (arg : String),
      (arg = "--" ∨ (arg.data.head? = some '-' ∧ is_dash_dash_or_option_name opts arg = true)) →
      opt.value_.has_implicit = false →
      checked_parse_arg opts (some arg) opt name st = .error (.missing_argument name)) ∧
    (∀ (opts : OptionMap) (opt : OptionDetails) (name : String) (st : ParserSt)
        (arg : String),
      ¬(arg.data.head? = some '-' ∧ is_dash_dash_or_option_name opts arg = true) →
      checked_parse_arg opts (some arg) opt name st = .ok (parse_option st opt arg, true)) ∧
    ((optionsParse outRegistry [] false false noEnv ["prog", "--out", "file"]).map
        (fun r => ((r.opIndex "out").map (·.as_string), r.consumed))
      = .ok (.ok (.ok "file"), 3)) ∧
    (optionsParse outRegistry [] false false noEnv ["prog", "--out", "-v"]
      = .error (.missing_argument "out")) := by
  refine ⟨?_, ?_, ?_, ?_, ?_, ?_, ?_⟩
  · intro opts opt name st himp
    simp [checked_parse_arg, himp]
  · intro opts opt name st himp
    simp [checked_parse_arg, himp]
  · intro opts opt name st arg hopt himp
    rcases hopt with h | ⟨h1, h2⟩
    · subst h; simp [checked_parse_arg, ValueSpec.get_no_value, himp]
      rfl
    · simp [checked_parse_arg, ValueSpec.get_no_value, h1, h2, himp]
  · intro opts opt name st arg hopt himp
    rcases hopt with h | ⟨h1, h2⟩
    · subst h; simp [checked_parse_arg, ValueSpec.get_no_value, himp]
      rfl
    · simp [checked_parse_arg, ValueSpec.get_no_value, h1, h2, himp]
  · intro opts opt name st arg hopt
    simp [checked_parse_arg, ValueSpec.get_no_value, hopt]
  · rfl
  · rfl

/-- C5.  Positional consumption (`consume_positional`): a cursor pointing
at an undeclared name is a hard `option_not_exists` error; a container
option binds the token without advancing the cursor; a non-container
option binds only with zero prior occurrences (and the cursor then
advances), and is otherwise skipped.  Concretely (spec §8): positional
`a`, `b` (strings), `c` (container) with argv tail `1 2 3 4` gives
`a = "1"`, `b = "2"`, `c = ["3", "4"]`. -/
theorem C5_positional_consumption :
    (∀ (opts : OptionMap) (st : ParserSt) (a n : String) (rest : List String),
      alistGet? opts n = none →
      consume_positional opts st a (n :: rest) = .error (.option_not_exists n)) ∧
    (∀ (opts : OptionMap) (st : ParserSt) (a n : String) (rest : List String)
        (opt : OptionDetails),
      alistGet? opts n = some opt → opt.value_.is_container = true →
      consume_positional opts st a (n :: rest) =
        .ok (true, n :: rest, parse_option st opt a)) ∧
    (∀ (opts : OptionMap) (st : ParserSt) (a n : String) (rest : List String)
        (opt : OptionDetails),
      alistGet? opts n = some opt → opt.value_.is_container = false →
      (parsedGet st.parsed opt.hash).count = 0 →
      consume_positional opts st a (n :: rest) =
        .ok (true, rest, parse_option st opt a)) ∧
    (∀ (opts : OptionMap) (st : ParserSt) (a n : String) (rest : List String)
        (opt : OptionDetails),
      alistGet? opts n = some opt → opt.value_.is_container = false →
      (parsedGet st.parsed opt.hash).count ≠ 0 →
      consume_positional opts st a (n :: rest) = consume_positional opts st a rest) ∧
    ((optionsParse abcRegistry ["a", "b", "c"] false false noEnv
        ["prog", "1", "2", "3", "4"]).map
        (fun r => ((r.opIndex "a").map (·.as_string), (r.opIndex "b").map (·.as_string),
                   (r.opIndex "c").map (·.texts), r.count "c"))
      = .ok (.ok (.ok "1"), .ok (.ok "2"), .ok ["3", "4"], 2)) := by
  refine ⟨?_, ?_, ?_, ?_, ?_⟩
  · intro opts st a n rest hfind
    simp [consume_positional, hfind]
  · intro opts st a n rest opt hfind hcont
    simp [consume_positional, hfind, hcont]
  · intro opts st a n rest opt hfind hcont hcount
    simp [consume_positional, hfind, hcont, hcount]
  · intro opts st a n rest opt hfind hcont hcount
    simp [consume_positional, hfind, hcont, hcount]
  · rfl

/-- C6.  The `--` terminator: when not in stop-on-positional mode, every
remaining token is fed through positional consumption until one fails to
be absorbed and that token and all after it go to the unmatched list (the
walk equals `consumeAllPositional` followed by routing the leftover to
unmatched; no token after `--` is ever looked up as an option); in
stop-on-positional mode the walk halts right after the `--` token with
`consumed` marking the stop position.  Concretely: with boolean `-s`
declared and argv `-- -s`, the token `-s` lands in unmatched as plain
text with `count("s") == 0`; in stop mode it is left unconsumed with
`consumed() == 2`. -/
theorem C6_terminator_semantics :
    (∀ (opts : OptionMap) (allow : Bool) (fuel : Nat) (rest : List String)
        (current : Nat) (np : List String) (st : ParserSt),
      parseLoop opts allow false (fuel + 1) ("--" :: rest) current np st =
        (consumeAllPositional opts rest np st).map
          (fun p => ({ p.1 with unmatched := p.1.unmatched ++ p.2 },
                     current + 1 + rest.length))) ∧
    (∀ (opts : OptionMap) (allow : Bool) (fuel : Nat) (rest : List String)
        (current : Nat) (np : List String) (st : ParserSt),
      parseLoop opts allow true (fuel + 1) ("--" :: rest) current np st =
        .ok (st, current + 1)) ∧
    ((optionsParse sRegistry [] false false noEnv ["prog", "--", "-s"]).map
        (fun r => (r.count "s", r.unmatched, r.consumed)) = .ok (0, ["-s"], 3)) ∧
    ((optionsParse sRegistry [] false true noEnv ["prog", "--", "-s"]).map
        (fun r => (r.count "s", r.unmatched, r.consumed)) = .ok (0, [], 2)) := by
  refine ⟨?_, ?_, ?_, ?_⟩
  · intro opts allow fuel rest current np st
    rw [parseLoop]
    simp only [if_pos rfl, Bool.false_eq_true, if_false]
    cases h : consumeAllPositional opts rest np st with
    | error e => simp [h, Except.map, Except.bind, Bind.bind, Except.instMonad]
    | ok p => cases p with
      | mk st' leftover => simp [h, Except.map, Except.bind, Bind.bind, Except.instMonad]
  · intro opts allow fuel rest current np st
    rw [parseLoop]
    simp
  · rfl
  · rfl

/-- C7.  Default vs environment vs explicit precedence for an option with
both `default_value("42")` and an env binding: an explicit argv
occurrence wins for every environment (the env step is skipped because
the count is non-zero, so the environment function is never consulted for
the value); with no argv occurrence and the env variable set, the env
text is bound as a normal occurrence (count becomes 1) after the default,
so it wins over the default, and it does not appear in `arguments()`;
with neither, the default is applied after the walk: `count() == 0` while
`as<int>()` yields 42, the default-applied flag is set, and nothing
appears in `arguments()`. -/
theorem C7_default_env_precedence :
    (∀ env : String → Option String,
      (optionsParse numRegistry [] false false env ["prog", "--num=7"]).map
        (fun r => (r.count "num", (r.opIndex "num").map (·.as_int32), r.sequential))
      = .ok (1, .ok (.ok (some 7)), [("num", "7")])) ∧
    ((optionsParse numRegistry [] false false numEnv13 ["prog"]).map
        (fun r => (r.count "num", (r.opIndex "num").map (·.as_int32), r.sequential))
      = .ok (1, .ok (.ok (some 13)), [])) ∧
    ((optionsParse numRegistry [] false false noEnv ["prog"]).map
        (fun r => (r.count "num",
                   (r.opIndex "num").map (fun ov => (ov.as_int32, ov.default)),
                   r.sequential))
      = .ok (0, .ok (.ok (some 42), true), [])) := by
  refine ⟨?_, ?_, ?_⟩
  · intro env
    rfl
  · rfl
  · rfl

/-- C10.  Under unrecognised-option tolerance, a cluster character that
is not a declared short option name is appended to the unmatched list as
the two-character string `-` + the character (one entry per unknown
character, not the whole token) and cluster scanning continues with the
remaining characters.  Concretely: registry with only `-x`, argv `-uxw`
gives `count("x") == 1` and `unmatched() == ["-u", "-w"]`. -/
theorem C10_unrecognised_cluster_char :
    (∀ (opts : OptionMap) (next_arg : Option String) (st : ParserSt)
        (c : Char) (rest : List Char),
      alistGet? opts ⟨[c]⟩ = none →
      clusterLoop opts true next_arg (c :: rest) st =
        clusterLoop opts true next_arg rest
          { st with unmatched := st.unmatched ++ ["-".push c] }) ∧
    ((optionsParse xRegistry [] true false noEnv ["prog", "-uxw"]).map
        (fun r => (r.count "x", r.unmatched)) = .ok (1, ["-u", "-w"])) := by
  refine ⟨?_, ?_⟩
  · intro opts next_arg st c rest hfind
    simp [clusterLoop, hfind]
  · rfl

end Cxxopts

namespace Cxxopts

/-! ## Claim C9: association-list and invariant lemmas -/

theorem alistGet?_alistSet {α : Type} (m : List (String × α)) (k j : String) (v : α) :
    alistGet? (alistSet m k v) j = if k = j then some v else alistGet? m j := by
  induction m with
  | nil => simp [alistSet, alistGet?]
  | cons p rest ih =>
    obtain ⟨k', v'⟩ := p
    by_cases h : k' = k
    · subst h
      simp only [alistSet, if_pos rfl, alistGet?]
      by_cases h2 : k' = j <;> simp [h2]
    · simp only [alistSet, if_neg h, alistGet?]
      by_cases h2 : k' = j
      · subst h2
        have hkj : ¬(k = k') := fun hh => h hh.symm
        simp [if_neg hkj]
      · simp [h2, ih]

theorem parsedGet_alistSet (m : ParsedMap) (k j : String) (v : OptionValue) :
    parsedGet (alistSet m k v) j = if k = j then v else parsedGet m j := by
  simp only [parsedGet, alistGet?_alistSet]
  by_cases h : k = j <;> simp [h]

theorem alistGet?_alistSet_isSome {α : Type} (m : List (String × α)) (k j : String) (v : α) :
    (alistGet? (alistSet m k v) j).isSome ↔ j = k ∨ (alistGet? m j).isSome := by
  rw [alistGet?_alistSet]
  by_cases h : k = j
  · simp [h]
  · have h2 : ¬(j = k) := fun hh => h hh.symm
    simp [h, h2]

theorem buildKeys_isSome :
    ∀ (opts : List (String × OptionDetails)) (keys : List (String × String)) (n : String),
      (alistGet? (buildKeys opts keys) n).isSome ↔
        n ∈ optionNames opts ∨ (alistGet? keys n).isSome := by
  intro opts
  induction opts with
  | nil => intro keys n; simp [buildKeys, optionNames]
  | cons p rest ih =>
    intro keys n
    obtain ⟨k, d⟩ := p
    simp only [buildKeys, optionNames]
    rw [ih]
    by_cases hs : d.short_ = "" <;> by_cases hl : d.long_ = "" <;>
      simp [hs, hl, alistGet?_alistSet_isSome, List.mem_append] <;> tauto

theorem alistSet_lookup_or {α : Type} (m : List (String × α)) (k j : String)
    (v h : α) :
    alistGet? (alistSet m k v) j = some h → h = v ∨ alistGet? m j = some h := by
  rw [alistGet?_alistSet]
  by_cases hk : k = j
  · simp [hk]
    intro hh; exact Or.inl hh.symm
  · simp [hk]
    exact Or.inr

theorem buildKeys_mem_hashes :
    ∀ (opts : List (String × OptionDetails)) (keys : List (String × String)) (n h : String),
      alistGet? (buildKeys opts keys) n = some h →
      h ∈ optionHashes opts ∨ alistGet? keys n = some h := by
  intro opts
  induction opts with
  | nil => intro keys n h hh; simp [buildKeys] at hh; simp [optionHashes, hh]
  | cons p rest ih =>
    intro keys n h hh
    obtain ⟨k, d⟩ := p
    simp only [buildKeys] at hh
    rcases ih _ n h hh with hcase | hcase
    · left; simp [optionHashes] at hcase ⊢; tauto
    · by_cases hl : d.long_ = "" <;> by_cases hs : d.short_ = "" <;>
        simp only [hl, hs, ne_eq, not_true_eq_false, not_false_eq_true,
          if_true, if_false, ite_true, ite_false] at hcase
      · right; exact hcase
      · rcases alistSet_lookup_or _ _ _ _ _ hcase with h1 | h1
        · left; simp [optionHashes, h1]
        · right; exact h1
      · rcases alistSet_lookup_or _ _ _ _ _ hcase with h1 | h1
        · left; simp [optionHashes, h1]
        · right; exact h1
      · rcases alistSet_lookup_or _ _ _ _ _ hcase with h1 | h1
        · left; simp [optionHashes, h1]
        · rcases alistSet_lookup_or _ _ _ _ _ h1 with h2 | h2
          · left; simp [optionHashes, h2]
          · right; exact h2



theorem isSome_set_mono {α : Type} (m : List (String × α)) (k j : String) (v : α)
    (h : (alistGet? m j).isSome) : (alistGet? (alistSet m k v) j).isSome :=
  (alistGet?_alistSet_isSome m k j v).mpr (Or.inr h)

theorem isSome_set_self {α : Type} (m : List (String × α)) (k : String) (v : α) :
    (alistGet? (alistSet m k v) k).isSome :=
  (alistGet?_alistSet_isSome m k k v).mpr (Or.inl rfl)

theorem applyEntry_isSome_mono (env : String → Option String) (d : OptionDetails)
    (m : ParsedMap) (j : String) (h : (alistGet? m j).isSome) :
    (alistGet? (applyEntry env d m) j).isSome := by
  simp only [applyEntry]
  have h1 : (alistGet? (alistSet m d.hash (parsedGet m d.hash)) j).isSome :=
    isSome_set_mono _ _ _ _ h
  cases henv : env d.value_.env_var <;>
    split_ifs <;>
      first
        | exact isSome_set_mono _ _ _ _ (isSome_set_mono _ _ _ _ h1)
        | exact isSome_set_mono _ _ _ _ h1
        | exact h1

theorem applyEntry_isSome_self (env : String → Option String) (d : OptionDetails)
    (m : ParsedMap) :
    (alistGet? (applyEntry env d m) d.hash).isSome := by
  simp only [applyEntry]
  have h1 : (alistGet? (alistSet m d.hash (parsedGet m d.hash)) d.hash).isSome :=
    isSome_set_self _ _ _
  cases henv : env d.value_.env_var <;>
    split_ifs <;>
      first
        | exact isSome_set_mono _ _ _ _ (isSome_set_mono _ _ _ _ h1)
        | exact isSome_set_mono _ _ _ _ h1
        | exact h1

theorem applyDefaultsEnv_isSome_mono (env : String → Option String) :
    ∀ (opts : List (String × OptionDetails)) (m : ParsedMap) (j : String),
      (alistGet? m j).isSome → (alistGet? (applyDefaultsEnv env opts m) j).isSome := by
  intro opts
  induction opts with
  | nil => intro m j h; simpa [applyDefaultsEnv] using h
  | cons p rest ih =>
    intro m j h
    obtain ⟨k, d⟩ := p
    simp only [applyDefaultsEnv]
    exact ih _ _ (applyEntry_isSome_mono env d m j h)

theorem applyDefaultsEnv_isSome_hash (env : String → Option String) :
    ∀ (opts : List (String × OptionDetails)) (m : ParsedMap) (h : String),
      h ∈ optionHashes opts →
      (alistGet? (applyDefaultsEnv env opts m) h).isSome := by
  intro opts
  induction opts with
  | nil => intro m h hmem; simp [optionHashes] at hmem
  | cons p rest ih =>
    intro m h hmem
    obtain ⟨k, d⟩ := p
    simp only [optionHashes, List.map_cons, List.mem_cons] at hmem
    simp only [applyDefaultsEnv]
    rcases hmem with rfl | hmem
    · exact applyDefaultsEnv_isSome_mono env rest _ _ (applyEntry_isSome_self env d m)
    · exact ih _ _ hmem



theorem OVinv_empty : OVinv {} := by
  intro h
  simp at h

theorem OVinv_parse (ov : OptionValue) (d : OptionDetails) (t : String) :
    OVinv (ov.parse d t) := by
  intro _
  left
  simp [OptionValue.parse]

theorem OVinv_parse_default (ov : OptionValue) (d : OptionDetails) :
    OVinv (ov.parse_default d) := by
  intro _
  right
  simp [OptionValue.parse_default]

theorem OVinv_parse_no_value (ov : OptionValue) (d : OptionDetails)
    (h : OVinv ov) : OVinv (ov.parse_no_value d) := by
  intro hv
  simp only [OptionValue.parse_no_value] at hv ⊢
  exact h hv

theorem PMinv_empty : PMinv ([] : ParsedMap) := by
  intro h
  simp only [parsedGet, alistGet?, Option.getD_none]
  exact OVinv_empty

theorem PMinv_set (m : ParsedMap) (k : String) (v : OptionValue)
    (hm : PMinv m) (hv : OVinv v) : PMinv (alistSet m k v) := by
  intro j
  rw [parsedGet_alistSet]
  split
  · exact hv
  · exact hm j

theorem PMinv_parse_option (st : ParserSt) (opt : OptionDetails) (a : String)
    (h : PMinv st.parsed) : PMinv (parse_option st opt a).parsed := by
  simp only [parse_option]
  exact PMinv_set _ _ _ h (OVinv_parse _ _ _)

theorem PMinv_ite (P : Prop) [Decidable P] (a b : ParsedMap)
    (ha : PMinv a) (hb : PMinv b) : PMinv (if P then a else b) := by
  split <;> assumption

theorem applyEntry_inv (env : String → Option String) (d : OptionDetails)
    (m : ParsedMap) (h : PMinv m) : PMinv (applyEntry env d m) := by
  simp only [applyEntry]
  cases henv : env d.value_.env_var <;> split_ifs <;> (try dsimp only) <;>
    repeat
      first
        | exact OVinv_parse _ _ _
        | exact OVinv_parse_default _ _
        | exact OVinv_parse_no_value _ _ (h _)
        | exact h _
        | exact h
        | apply PMinv_set

theorem applyDefaultsEnv_inv (env : String → Option String) :
    ∀ (opts : List (String × OptionDetails)) (m : ParsedMap),
      PMinv m → PMinv (applyDefaultsEnv env opts m) := by
  intro opts
  induction opts with
  | nil => intro m h; simpa [applyDefaultsEnv] using h
  | cons p rest ih =>
    intro m h
    obtain ⟨k, d⟩ := p
    simp only [applyDefaultsEnv]
    exact ih _ (applyEntry_inv env d m h)



theorem consume_positional_inv (opts : OptionMap) (a : String) :
    ∀ (np : List String) (st : ParserSt), PMinv st.parsed →
      ∀ (b : Bool) (np2 : List String) (st2 : ParserSt),
        consume_positional opts st a np = .ok (b, np2, st2) → PMinv st2.parsed := by
  intro np
  induction np with
  | nil =>
    intro st h b np2 st2 heq
    simp only [consume_positional, Except.ok.injEq, Prod.mk.injEq] at heq
    obtain ⟨-, -, h3⟩ := heq
    exact h3 ▸ h
  | cons n rest ih =>
    intro st h b np2 st2 heq
    simp only [consume_positional] at heq
    cases hfind : alistGet? opts n with
    | none => rw [hfind] at heq; simp at heq
    | some opt =>
      rw [hfind] at heq
      cases hc : opt.value_.is_container with
      | true =>
        simp only [hc, if_true, Except.ok.injEq, Prod.mk.injEq] at heq
        obtain ⟨-, -, h3⟩ := heq
        exact h3 ▸ PMinv_parse_option st opt a h
      | false =>
        simp only [hc, Bool.false_eq_true, if_false] at heq
        by_cases hcount : (parsedGet st.parsed opt.hash).count = 0
        · simp only [hcount, if_pos, Except.ok.injEq, Prod.mk.injEq] at heq
          obtain ⟨-, -, h3⟩ := heq
          exact h3 ▸ PMinv_parse_option st opt a h
        · rw [if_neg hcount] at heq
          exact ih st h b np2 st2 heq

theorem checked_parse_arg_inv (opts : OptionMap) (next_arg : Option String)
    (opt : OptionDetails) (name : String) (st : ParserSt) (h : PMinv st.parsed) :
    ∀ (st2 : ParserSt) (b : Bool),
      checked_parse_arg opts next_arg opt name st = .ok (st2, b) → PMinv st2.parsed := by
  intro st2 b heq
  simp only [checked_parse_arg] at heq
  cases next_arg <;> repeat' split at heq
  all_goals try simp only [Except.ok.injEq, Prod.mk.injEq] at heq
  all_goals
    first
      | (obtain ⟨h3, -⟩ := heq
         exact h3 ▸ PMinv_parse_option _ _ _ h)
      | simp at heq

theorem clusterLoop_inv (opts : OptionMap) (allow : Bool) (next_arg : Option String) :
    ∀ (seq : List Char) (st : ParserSt), PMinv st.parsed →
      ∀ (st2 : ParserSt) (b : Bool),
        clusterLoop opts allow next_arg seq st = .ok (st2, b) → PMinv st2.parsed := by
  intro seq
  induction seq with
  | nil =>
    intro st h st2 b heq
    simp only [clusterLoop, Except.ok.injEq, Prod.mk.injEq] at heq
    obtain ⟨h3, -⟩ := heq
    exact h3 ▸ h
  | cons c rest ih =>
    intro st h st2 b heq
    simp only [clusterLoop] at heq
    cases hfind : alistGet? opts ⟨[c]⟩ with
    | none =>
      simp only [hfind] at heq
      cases allow with
      | true =>
        simp only [if_true] at heq
        exact ih { st with unmatched := st.unmatched ++ ["-".push c] } h st2 b heq
      | false => simp at heq
    | some opt =>
      simp only [hfind] at heq
      by_cases hrest : rest = []
      · rw [if_pos hrest] at heq
        exact checked_parse_arg_inv opts next_arg opt _ st h st2 b heq
      · rw [if_neg hrest] at heq
        cases himp : opt.value_.has_implicit with
        | true =>
          simp only [himp, if_true] at heq
          exact ih _ (PMinv_parse_option _ _ _ h) st2 b heq
        | false =>
          simp only [himp, Bool.false_eq_true, if_false, Except.ok.injEq,
            Prod.mk.injEq] at heq
          obtain ⟨h3, -⟩ := heq
          exact h3 ▸ PMinv_parse_option _ _ _ h

theorem consumeAllPositional_inv (opts : OptionMap) :
    ∀ (toks np : List String) (st : ParserSt), PMinv st.parsed →
      ∀ (st2 : ParserSt) (leftover : List String),
        consumeAllPositional opts toks np st = .ok (st2, leftover) → PMinv st2.parsed := by
  intro toks
  induction toks with
  | nil =>
    intro np st h st2 leftover heq
    simp only [consumeAllPositional, Except.ok.injEq, Prod.mk.injEq] at heq
    obtain ⟨h3, -⟩ := heq
    exact h3 ▸ h
  | cons a rest ih =>
    intro np st h st2 leftover heq
    simp only [consumeAllPositional] at heq
    cases hcp : consume_positional opts st a np with
    | error e =>
      rw [hcp] at heq
      simp only [Bind.bind, Except.instMonad, Except.bind] at heq
      simp at heq
    | ok trip =>
      rw [hcp] at heq
      obtain ⟨b, np', st'⟩ := trip
      have hst' : PMinv st'.parsed := consume_positional_inv opts a np st h b np' st' hcp
      simp only [Bind.bind, Except.instMonad, Except.bind] at heq
      cases b with
      | true =>
        exact ih np' st' hst' st2 leftover heq
      | false =>
        simp only [Except.ok.injEq, Prod.mk.injEq] at heq
        obtain ⟨h3, -⟩ := heq
        exact h3 ▸ hst'



theorem parseLoop_inv (opts : OptionMap) (allow stop : Bool) :
    ∀ (fuel : Nat) (remaining : List String) (current : Nat) (np : List String)
      (st : ParserSt), PMinv st.parsed →
      ∀ (st2 : ParserSt) (current2 : Nat),
        parseLoop opts allow stop fuel remaining current np st = .ok (st2, current2) →
        PMinv st2.parsed := by
  intro fuel
  induction fuel with
  | zero =>
    intro remaining current np st h st2 current2 heq
    cases remaining <;>
      (simp only [parseLoop, Except.ok.injEq, Prod.mk.injEq] at heq
       obtain ⟨h3, -⟩ := heq
       exact h3 ▸ h)
  | succ fuel ih =>
    intro remaining current np st h st2 current2 heq
    cases remaining with
    | nil =>
      simp only [parseLoop, Except.ok.injEq, Prod.mk.injEq] at heq
      obtain ⟨h3, -⟩ := heq
      exact h3 ▸ h
    | cons tok rest =>
      simp only [parseLoop] at heq
      by_cases hdd : tok = "--"
      · rw [if_pos hdd] at heq
        cases stop with
        | true =>
          simp only [if_true, Except.ok.injEq, Prod.mk.injEq] at heq
          obtain ⟨h3, -⟩ := heq
          exact h3 ▸ h
        | false =>
          simp only [Bool.false_eq_true, if_false] at heq
          cases hca : consumeAllPositional opts rest np st with
          | error e =>
            rw [hca] at heq
            simp only [Bind.bind, Except.instMonad, Except.bind] at heq
            simp at heq
          | ok p =>
            rw [hca] at heq
            obtain ⟨st', leftover⟩ := p
            simp only [Bind.bind, Except.instMonad, Except.bind, Except.ok.injEq,
              Prod.mk.injEq] at heq
            obtain ⟨h3, -⟩ := heq
            exact h3 ▸ consumeAllPositional_inv opts rest np st h st' leftover hca
      · rw [if_neg hdd] at heq
        cases hpa : parse_argument tok with
        | none =>
          simp only [hpa] at heq
          split at heq
          · simp at heq
          · cases stop with
            | true =>
              simp only [if_true, Except.ok.injEq, Prod.mk.injEq] at heq
              obtain ⟨h3, -⟩ := heq
              exact h3 ▸ h
            | false =>
              simp only [Bool.false_eq_true, if_false] at heq
              cases hcp : consume_positional opts st tok np with
              | error e =>
                rw [hcp] at heq
                simp only [Bind.bind, Except.instMonad, Except.bind] at heq
                simp at heq
              | ok trip =>
                rw [hcp] at heq
                obtain ⟨consumedOk, np', st'⟩ := trip
                simp only [Bind.bind, Except.instMonad, Except.bind] at heq
                have hst' : PMinv st'.parsed :=
                  consume_positional_inv opts tok np st h consumedOk np' st' hcp
                cases consumedOk with
                | true =>
                  simp only [if_true] at heq
                  exact ih rest (current + 1) np' st' hst' st2 current2 heq
                | false =>
                  simp only [Bool.false_eq_true, if_false] at heq
                  exact ih rest (current + 1) np'
                    { st' with unmatched := st'.unmatched ++ [tok] } hst' st2 current2 heq
        | some result =>
          simp only [hpa] at heq
          cases hlong : result.is_long with
          | false =>
            simp only [hlong, if_true] at heq
            cases hcl : clusterLoop opts allow rest.head? result.name.data st with
            | error e =>
              rw [hcl] at heq
              simp only [Bind.bind, Except.instMonad, Except.bind] at heq
              simp at heq
            | ok p =>
              rw [hcl] at heq
              obtain ⟨st', consumedNext⟩ := p
              simp only [Bind.bind, Except.instMonad, Except.bind] at heq
              have hst' : PMinv st'.parsed :=
                clusterLoop_inv opts allow rest.head? result.name.data st h st' consumedNext hcl
              cases consumedNext with
              | true =>
                simp only [if_true] at heq
                exact ih (rest.drop 1) (current + 2) np st' hst' st2 current2 heq
              | false =>
                simp only [Bool.false_eq_true, if_false] at heq
                exact ih rest (current + 1) np st' hst' st2 current2 heq
          | true =>
            simp only [hlong, Bool.true_eq_false, if_false] at heq
            cases hfind : alistGet? opts result.name with
            | none =>
              simp only [hfind] at heq
              cases allow with
              | true =>
                simp only [if_true] at heq
                exact ih rest (current + 1) np
                  { st with unmatched := st.unmatched ++ [tok] } h st2 current2 heq
              | false => simp at heq
            | some opt =>
              simp only [hfind] at heq
              cases hhv : result.has_value with
              | true =>
                simp only [hhv, if_true] at heq
                exact ih rest (current + 1) np (parse_option st opt result.value)
                  (PMinv_parse_option _ _ _ h) st2 current2 heq
              | false =>
                simp only [hhv, Bool.false_eq_true, if_false] at heq
                cases hcpa : checked_parse_arg opts rest.head? opt result.name st with
                | error e =>
                  rw [hcpa] at heq
                  simp only [Bind.bind, Except.instMonad, Except.bind] at heq
                  simp at heq
                | ok p =>
                  rw [hcpa] at heq
                  obtain ⟨st', consumedNext⟩ := p
                  simp only [Bind.bind, Except.instMonad, Except.bind] at heq
                  have hst' : PMinv st'.parsed :=
                    checked_parse_arg_inv opts rest.head? opt result.name st h st' consumedNext hcpa
                  cases consumedNext with
                  | true =>
                    simp only [if_true] at heq
                    exact ih (rest.drop 1) (current + 2) np st' hst' st2 current2 heq
                  | false =>
                    simp only [Bool.false_eq_true, if_false] at heq
                    exact ih rest (current + 1) np st' hst' st2 current2 heq



theorem optionsParse_ok_facts (opts : OptionMap) (positional : List String)
    (allow stop : Bool) (env : String → Option String) (argv : List String)
    (r : ParseResult)
    (hok : optionsParse opts positional allow stop env argv = .ok r) :
    PMinv r.values ∧ r.keys = buildKeys opts [] ∧
    ∀ hh, hh ∈ optionHashes opts → (alistGet? r.values hh).isSome := by
  simp only [optionsParse] at hok
  cases hpl : parseLoop opts allow stop (argv.drop 1).length (argv.drop 1) 1 positional {} with
  | error e =>
    rw [hpl] at hok
    simp only [Bind.bind, Except.instMonad, Except.bind] at hok
    simp at hok
  | ok p =>
    rw [hpl] at hok
    obtain ⟨st, current⟩ := p
    simp only [Bind.bind, Except.instMonad, Except.bind, Except.ok.injEq] at hok
    subst hok
    refine ⟨?_, rfl, ?_⟩
    · exact applyDefaultsEnv_inv env opts st.parsed
        (parseLoop_inv opts allow stop _ _ _ _ _ PMinv_empty st current hpl)
    · intro hh hmem
      exact applyDefaultsEnv_isSome_hash env opts st.parsed hh hmem



/-- C9.  Querying a successful parse result with `operator[]` fails with
`option_not_present` exactly when the name is not a short or long name of
a declared option (every declared name resolves: the name-to-hash index
is built from the declared names, and the defaults pass materializes an
entry in the hash-to-value map for every declared option's hash); and for
a declared option whose value was never bound (count zero and no default
applied — by the storage invariant its storage was never materialized),
reading the typed value with `as<T>` fails with `option_has_no_value`.
The concrete instances exercise an undeclared name and the never-bound
string option `-a`. -/
theorem C9_result_query_errors :
    (∀ (opts : OptionMap) (positional : List String) (allow stop : Bool)
        (env : String → Option String) (argv : List String) (r : ParseResult)
        (name : String),
      optionsParse opts positional allow stop env argv = .ok r →
      (r.opIndex name = .error (.option_not_present name) ↔ name ∉ optionNames opts)) ∧
    (∀ (opts : OptionMap) (positional : List String) (allow stop : Bool)
        (env : String → Option String) (argv : List String) (r : ParseResult)
        (name : String) (ov : OptionValue),
      optionsParse opts positional allow stop env argv = .ok r →
      r.opIndex name = .ok ov → ov.count = 0 → ov.default = false →
      ov.as_string = .error (.option_has_no_value ov.long_name) ∧
      ov.as_int32 = .error (.option_has_no_value ov.long_name)) ∧
    ((optionsParse xaRegistry [] false false noEnv ["prog"]).map
        (fun r => r.opIndex "zzz") = .ok (.error (.option_not_present "zzz"))) ∧
    ((optionsParse xaRegistry [] false false noEnv ["prog"]).map
        (fun r => (r.opIndex "a").map (·.as_string))
      = .ok (.ok (.error (.option_has_no_value "")))) := by
  refine ⟨?_, ?_, rfl, rfl⟩
  · intro opts positional allow stop env argv r name hok
    obtain ⟨hinv, hkeys, hpresent⟩ :=
      optionsParse_ok_facts opts positional allow stop env argv r hok
    constructor
    · intro herr hmem
      have hks : (alistGet? r.keys name).isSome := by
        rw [hkeys]
        exact (buildKeys_isSome opts [] name).mpr (Or.inl hmem)
      obtain ⟨hsh, hget⟩ := Option.isSome_iff_exists.mp hks
      have hmemh : hsh ∈ optionHashes opts := by
        rcases buildKeys_mem_hashes opts [] name hsh (hkeys ▸ hget) with h1 | h1
        · exact h1
        · simp [alistGet?] at h1
      obtain ⟨ov, hov⟩ := Option.isSome_iff_exists.mp (hpresent hsh hmemh)
      simp [ParseResult.opIndex, hget, hov] at herr
    · intro hnotmem
      have hks : alistGet? r.keys name = none := by
        cases hx : alistGet? r.keys name with
        | none => rfl
        | some hsh =>
          exfalso
          have : (alistGet? r.keys name).isSome := by simp [hx]
          rw [hkeys, buildKeys_isSome] at this
          rcases this with h1 | h1
          · exact hnotmem h1
          · simp [alistGet?] at h1
      simp [ParseResult.opIndex, hks]
  · intro opts positional allow stop env argv r name ov hok hov hcount hdefault
    obtain ⟨hinv, -, -⟩ :=
      optionsParse_ok_facts opts positional allow stop env argv r hok
    have hovinv : OVinv ov := by
      simp only [ParseResult.opIndex] at hov
      cases hk : alistGet? r.keys name with
      | none => simp only [hk] at hov; simp at hov
      | some hsh =>
        simp only [hk] at hov
        cases hv : alistGet? r.values hsh with
        | none => simp only [hv] at hov; simp at hov
        | some ov' =>
          simp only [hv] at hov
          simp only [Except.ok.injEq] at hov
          subst hov
          have hthis := hinv hsh
          simp only [parsedGet, hv, Option.getD_some] at hthis
          exact hthis
    have hvs : ov.value_set = false := by
      cases hvset : ov.value_set with
      | false => rfl
      | true =>
        rcases hovinv hvset with hc | hd
        · rw [hcount] at hc
          exact absurd hc (by simp)
        · rw [hdefault] at hd
          cases hd
    constructor <;> simp [OptionValue.as_string, OptionValue.as_int32, hvs]

end Cxxopts
